import Mathlib

/-!
# Verification of the `execute_command` command-execution strategy layer

Shallow embedding of the Go sources (`executor/executor.go`,
`executor/base64_executor.go`, `executor/plain_executor.go`,
`parser/parser.go`, `main.go`) and proofs about them.

Modelling conventions:
* Go enumerations (`ExecutorType`, `ShellType`) become Lean inductives; their
  `String()` methods become `asString` functions mirroring the Go switch,
  including the default branches.
* The host operating system enters only through `runtime.GOOS == "windows"`
  in the modelled code paths, so it is threaded as an explicit
  `isWindows : Bool` argument.
* `exec.Command(prog, args...)` is modelled by the record `ExecCmd`; a
  function that spawns a process returns `Except String ExecCmd`, where
  `Except.ok c` means "spawns exactly the invocation `c`" and
  `Except.error m` means "returns the error `m` without spawning".  The exit
  status of the spawned process is outside the model.
* Go byte slices are `List Nat` with each element `< 256`.  Go strings are
  byte strings; command-line text is valid UTF-8, so textual Go strings are
  modelled as Lean `String` and `[]byte(s)` as `utf8Encode s`.  The one place
  a Go string can hold arbitrary bytes — the output of base64 decoding — is
  modelled as the raw byte list.
-/

/-- `ExecutorType` from `executor/executor.go`. -/
inductive ExecutorType where
  | Base64Type
  | PlainType
deriving DecidableEq

/-- `ShellType` from `executor/executor.go`. -/
inductive ShellType where
  | AutoShell
  | CMDShell
  | PowerShellShell
  | ShShell
deriving DecidableEq

/-- `ExecutorType.String()`; the Go default branch returns `"base64"`. -/
def ExecutorType.asString : ExecutorType → String
  | ExecutorType.Base64Type => "base64"
  | ExecutorType.PlainType => "plain"

/-- `ShellType.String()`; the Go default branch returns `"auto"`. -/
def ShellType.asString : ShellType → String
  | ShellType.AutoShell => "auto"
  | ShellType.CMDShell => "cmd"
  | ShellType.PowerShellShell => "powershell"
  | ShellType.ShShell => "sh"

/-- A concrete external-process invocation, as built by `exec.Command`. -/
structure ExecCmd where
  prog : String
  args : List String
deriving DecidableEq

/-- The single-quote character, written via its code point. -/
def singleQuoteChar : Char := Char.ofNat 39

/-- The single-quote as a one-character string. -/
def singleQuote : String := String.singleton singleQuoteChar

/-- The `Auto` resolution step shared by `GetShellCommand` and
`GetShellCommandForBase64`: `auto` becomes `cmd` on Windows and `sh`
elsewhere. -/
def resolveShell (shellType : ShellType) (isWindows : Bool) : ShellType :=
  if shellType = ShellType.AutoShell then
    if isWindows then ShellType.CMDShell else ShellType.ShShell
  else shellType

/-- `GetShellCommand` from `executor/executor.go`: shell invocation for a
plaintext payload.  The final `AutoShell` arm mirrors the Go `default:`
fallback (unreachable after resolution). -/
def GetShellCommand (command : String) (shellType : ShellType) (isWindows : Bool) : ExecCmd :=
  match resolveShell shellType isWindows with
  | ShellType.CMDShell => ⟨"cmd", ["/C", command]⟩
  | ShellType.PowerShellShell => ⟨"powershell", ["-Command", command]⟩
  | ShellType.ShShell => ⟨"sh", ["-c", command]⟩
  | ShellType.AutoShell =>
      if isWindows then ⟨"cmd", ["/C", command]⟩ else ⟨"sh", ["-c", command]⟩

/-- `GetShellCommandForBase64` from `executor/executor.go`: shell invocation
for a base64-encoded payload.  The `Sh` arm interpolates the payload verbatim
into `fmt.Sprintf("echo '%s' | base64 -d | sh", encodedCommand)`. -/
def GetShellCommandForBase64 (encodedCommand : String) (shellType : ShellType)
    (isWindows : Bool) : ExecCmd :=
  match resolveShell shellType isWindows with
  | ShellType.CMDShell => ⟨"cmd", ["/C", encodedCommand]⟩
  | ShellType.PowerShellShell => ⟨"powershell", ["-EncodedCommand", encodedCommand]⟩
  | ShellType.ShShell =>
      ⟨"sh", ["-c", "echo " ++ singleQuote ++ encodedCommand ++ singleQuote ++ " | base64 -d | sh"]⟩
  | ShellType.AutoShell =>
      if isWindows then ⟨"cmd", ["/C", encodedCommand]⟩
      else
        ⟨"sh", ["-c", "echo " ++ singleQuote ++ encodedCommand ++ singleQuote ++ " | base64 -d | sh"]⟩

/-- `Config` from `parser/parser.go` (the `LogLevel` field feeds only the
logging plumbing and is omitted). -/
structure Config where
  shellType : ShellType
  executorType : ExecutorType
  help : Bool
  action : String
  args : List String

/-- `Config.ValidateExecutorShellCompatibility` from `parser/parser.go`:
rejects the base64 executor together with the cmd shell; the Go comparison
goes through the `String()` representations. -/
def Config.ValidateExecutorShellCompatibility (c : Config) : Option String :=
  if c.executorType.asString = "base64" then
    if c.shellType.asString = "cmd" then
      some "base64 executor is not compatible with cmd shell. Use powershell or sh instead"
    else none
  else none

/-- `Config.GetCommand` from `parser/parser.go`: `strings.Join(c.Args[1:], " ")`
when at least two positional arguments are present, otherwise `""`. -/
def stringsJoin (elems : List String) (sep : String) : String :=
  match elems with
  | [] => ""
  | x :: xs => xs.foldl (fun acc s => acc ++ sep ++ s) x

def Config.GetCommand (c : Config) : String :=
  if c.args.length < 2 then "" else stringsJoin (c.args.drop 1) " "

instance {ε α : Type} [DecidableEq ε] [DecidableEq α] : DecidableEq (Except ε α) := fun x y =>
  match x, y with
  | Except.error a, Except.error b =>
      if h : a = b then isTrue (by rw [h]) else isFalse (fun hh => h (Except.error.inj hh))
  | Except.error _, Except.ok _ => isFalse (fun hh => Except.noConfusion hh)
  | Except.ok _, Except.error _ => isFalse (fun hh => Except.noConfusion hh)
  | Except.ok a, Except.ok b =>
      if h : a = b then isTrue (by rw [h]) else isFalse (fun hh => h (Except.ok.inj hh))

/-! ## The base64 codec (`encoding/base64` standard encoding, as used by the
source through `base64.StdEncoding.EncodeToString` / `DecodeString`) -/

/-- The standard base64 alphabet, index 0 to 63. -/
def b64Alphabet : List Char :=
  "ABCDEFGHIJKLMNOPQRSTUVWXYZabcdefghijklmnopqrstuvwxyz0123456789+/".data

/-- Character for a 6-bit group. -/
def b64Char (n : Nat) : Char := b64Alphabet.getD n 'A'

def b64IndexAux : List Char → Char → Nat → Option Nat
  | [], _, _ => none
  | a :: as, c, i => if a = c then some i else b64IndexAux as c (i + 1)

/-- Index of a character in the standard base64 alphabet, `none` for
characters outside it (including `=`). -/
def b64Index (c : Char) : Option Nat := b64IndexAux b64Alphabet c 0

/-- Standard base64 encoding of a byte sequence, three bytes to four
characters, with `=` padding on a 1- or 2-byte tail. -/
def b64EncodeBytes : List Nat → List Char
  | [] => []
  | [a] => [b64Char (a / 4), b64Char (a % 4 * 16), '=', '=']
  | [a, b] => [b64Char (a / 4), b64Char (a % 4 * 16 + b / 16), b64Char (b % 16 * 4), '=']
  | a :: b :: c :: rest =>
      b64Char (a / 4) :: b64Char (a % 4 * 16 + b / 16) :: b64Char (b % 16 * 4 + c / 64) ::
        b64Char (c % 64) :: b64EncodeBytes rest

/-- Standard base64 decoding of a character sequence in blocks of four;
padding (`=`) is accepted only at the last one or two positions of the final
block, and any character outside the alphabet, or a block of fewer than four
characters, is an error (`none`).  Mirrors Go `base64.StdEncoding` (which,
like Go, does not insist that the unused trailing bits be zero). -/
def b64DecodeChars : List Char → Option (List Nat)
  | [] => some []
  | c0 :: c1 :: c2 :: c3 :: rest =>
      (match b64Index c0, b64Index c1 with
      | some i0, some i1 =>
        if c2 = '=' then
          if c3 = '=' ∧ rest = [] then some [i0 * 4 + i1 / 16] else none
        else
          (match b64Index c2 with
          | some i2 =>
            if c3 = '=' then
              if rest = [] then some [i0 * 4 + i1 / 16, i1 % 16 * 16 + i2 / 4] else none
            else
              (match b64Index c3 with
              | some i3 =>
                (match b64DecodeChars rest with
                | some bs =>
                    some ((i0 * 4 + i1 / 16) :: (i1 % 16 * 16 + i2 / 4) :: (i2 % 4 * 64 + i3) :: bs)
                | none => none)
              | none => none)
          | none => none)
      | _, _ => none)
  | _ => none

/-- `base64.StdEncoding.EncodeToString`. -/
def EncodeToString (bytes : List Nat) : String := String.mk (b64EncodeBytes bytes)

/-- `base64.StdEncoding.DecodeString`: Go's decoder skips carriage returns
and newlines, then decodes strictly. -/
def DecodeString (s : String) : Option (List Nat) :=
  b64DecodeChars (s.data.filter (fun c => c != '\n' && c != '\r'))

/-! ## UTF-8 and UTF-16LE byte sequences -/

/-- UTF-8 encoding of a unicode scalar value (the byte sequence Go's
`[]byte(command)` holds for that code point of a command string). -/
def utf8EncodeChar (v : Nat) : List Nat :=
  if v < 0x80 then [v]
  else if v < 0x800 then [0xC0 + v / 64, 0x80 + v % 64]
  else if v < 0x10000 then [0xE0 + v / 4096, 0x80 + v / 64 % 64, 0x80 + v % 64]
  else [0xF0 + v / 262144, 0x80 + v / 4096 % 64, 0x80 + v / 64 % 64, 0x80 + v % 64]

/-- The UTF-8 bytes of a string: Go's `[]byte(s)`. -/
def utf8Encode (s : String) : List Nat :=
  s.data.flatMap (fun c => utf8EncodeChar c.toNat)

/-- A UTF-8 continuation byte. -/
def utf8Cont (b : Nat) : Prop := 0x80 ≤ b ∧ b < 0xC0

instance (b : Nat) : Decidable (utf8Cont b) := by unfold utf8Cont; infer_instance

/-- Scalar value of a two-byte UTF-8 sequence. -/
def utf8Val2 (b0 b1 : Nat) : Nat := (b0 - 0xC0) * 64 + (b1 - 0x80)

/-- Scalar value of a three-byte UTF-8 sequence. -/
def utf8Val3 (b0 b1 b2 : Nat) : Nat := (b0 - 0xE0) * 4096 + (b1 - 0x80) * 64 + (b2 - 0x80)

/-- Scalar value of a four-byte UTF-8 sequence. -/
def utf8Val4 (b0 b1 b2 b3 : Nat) : Nat :=
  (b0 - 0xF0) * 262144 + (b1 - 0x80) * 4096 + (b2 - 0x80) * 64 + (b3 - 0x80)

/-- Decode one UTF-8 sequence starting with byte `b0`: the scalar value and
the remaining bytes, or `none` on a truncated, overlong or out-of-range
sequence. -/
def utf8DecodeOne (b0 : Nat) (rest : List Nat) : Option (Nat × List Nat) :=
  if b0 < 0x80 then some (b0, rest)
  else if b0 < 0xE0 then
    match rest with
    | b1 :: rest2 =>
        if 0xC2 ≤ b0 ∧ utf8Cont b1 then some (utf8Val2 b0 b1, rest2) else none
    | [] => none
  else if b0 < 0xF0 then
    match rest with
    | b1 :: b2 :: rest3 =>
        if utf8Cont b1 ∧ utf8Cont b2 ∧ 0x800 ≤ utf8Val3 b0 b1 b2 ∧
            ¬(0xD800 ≤ utf8Val3 b0 b1 b2 ∧ utf8Val3 b0 b1 b2 < 0xE000) then
          some (utf8Val3 b0 b1 b2, rest3)
        else none
    | _ => none
  else if b0 < 0xF8 then
    match rest with
    | b1 :: b2 :: b3 :: rest4 =>
        if utf8Cont b1 ∧ utf8Cont b2 ∧ utf8Cont b3 ∧ 0x10000 ≤ utf8Val4 b0 b1 b2 b3 ∧
            utf8Val4 b0 b1 b2 b3 < 0x110000 then
          some (utf8Val4 b0 b1 b2 b3, rest4)
        else none
    | _ => none
  else none

/-- Strict UTF-8 decoding loop with fuel (one unit per decoded sequence; the
byte count is always enough fuel, see `utf8DecodeCodes`). -/
def utf8DecodeLoop : Nat → List Nat → Option (List Nat)
  | _, [] => some []
  | 0, _ :: _ => none
  | Nat.succ fuel, b0 :: rest =>
    match utf8DecodeOne b0 rest with
    | some (v, rest2) => (utf8DecodeLoop fuel rest2).map (fun vs => v :: vs)
    | none => none

/-- Strict UTF-8 decoding of a byte sequence into unicode scalar values;
`none` on truncated, overlong or out-of-range sequences.  Used to read
decoded bytes back as text. -/
def utf8DecodeCodes (bs : List Nat) : Option (List Nat) := utf8DecodeLoop bs.length bs

/-- The textual (UTF-8) reading of a byte sequence, as a Lean string.  A Go
string holds the raw bytes themselves; this is the reading of those bytes as
text, exact whenever the bytes are a valid UTF-8 encoding (the only case the
theorems below rely on). -/
def stringOfUtf8 (bs : List Nat) : String :=
  match utf8DecodeCodes bs with
  | some vs => String.mk (vs.map Char.ofNat)
  | none => ""

/-- `utf16.Encode` on a single rune: one code unit below `0x10000`
(surrogate-range and out-of-range runes become `0xFFFD`), otherwise a
surrogate pair. -/
def utf16EncodeRune (v : Nat) : List Nat :=
  if v < 0x10000 then
    if 0xD800 ≤ v ∧ v < 0xE000 then [0xFFFD] else [v]
  else if v ≤ 0x10FFFF then
    [0xD800 + (v - 0x10000) / 1024, 0xDC00 + (v - 0x10000) % 1024]
  else [0xFFFD]

/-- `utf16.Encode` over a rune sequence. -/
def utf16Encode (codes : List Nat) : List Nat := codes.flatMap utf16EncodeRune

/-- The UTF-16 little-endian byte sequence of a string: each code unit
serialized low byte first (`byte(u & 0xFF)` then `byte((u >> 8) & 0xFF)`),
as in `encodeForPowerShell` and `getDefaultBase64Command`. -/
def utf16leBytes (s : String) : List Nat :=
  (utf16Encode (s.data.map Char.toNat)).flatMap (fun u => [u % 256, u / 256 % 256])

/-! ## The execution strategies (`base64_executor.go`, `plain_executor.go`),
the factory (`executor.go`) and the `main.go` override -/

/-- `Base64Executor`: its logger is plumbing and is omitted. -/
structure Base64Executor where
  shellType : ShellType
  defaultCommand : String
deriving DecidableEq

/-- `PlainExecutor`. -/
structure PlainExecutor where
  shellType : ShellType
  defaultCommand : String
deriving DecidableEq

/-- `getDefaultBase64Command` from `base64_executor.go`: on Windows the
UTF-16LE bytes of `"ipconfig"`, base64-encoded; otherwise the UTF-8 bytes of
`"ifconfig"`, base64-encoded. -/
def getDefaultBase64Command (isWindows : Bool) : String :=
  if isWindows then EncodeToString (utf16leBytes "ipconfig")
  else EncodeToString (utf8Encode "ifconfig")

/-- `NewBase64ExecutorWithShell`. -/
def NewBase64ExecutorWithShell (shellType : ShellType) (isWindows : Bool) : Base64Executor :=
  ⟨shellType, getDefaultBase64Command isWindows⟩

/-- `getDefaultPlainCommand` from `plain_executor.go`. -/
def getDefaultPlainCommand (isWindows : Bool) : String :=
  if isWindows then "ipconfig" else "ifconfig"

/-- `NewPlainExecutorWithShell`. -/
def NewPlainExecutorWithShell (shellType : ShellType) (isWindows : Bool) : PlainExecutor :=
  ⟨shellType, getDefaultPlainCommand isWindows⟩

/-- `Base64Executor.encodeForPowerShell`: UTF-16 code units, serialized
little-endian, then base64. -/
def Base64Executor.encodeForPowerShell (command : String) : String :=
  EncodeToString (utf16leBytes command)

/-- `Base64Executor.EncodeCommand`: UTF-16LE for the PowerShell shell,
UTF-8 for every other shell. -/
def Base64Executor.EncodeCommand (be : Base64Executor) (command : String) : String :=
  if be.shellType = ShellType.PowerShellShell then
    Base64Executor.encodeForPowerShell command
  else EncodeToString (utf8Encode command)

/-- `Base64Executor.DecodeCommand`: `base64.StdEncoding.DecodeString`, the
raw decoded bytes on success (Go wraps the underlying decoder error; the
exact wrapped text, which includes an input position, is abstracted). -/
def Base64Executor.DecodeCommand (_be : Base64Executor) (encodedCommand : String) :
    Except String (List Nat) :=
  match DecodeString encodedCommand with
  | some bytes => Except.ok bytes
  | none => Except.error "failed to decode base64: illegal base64 data"

/-- `Base64Executor.executeCommand` (private): spawn the plaintext shell
invocation. -/
def Base64Executor.executeCommand (be : Base64Executor) (isWindows : Bool) (command : String) :
    Except String ExecCmd :=
  Except.ok (GetShellCommand command be.shellType isWindows)

/-- `Base64Executor.executeBase64CommandDirect` (private): spawn the
base64-payload shell invocation. -/
def Base64Executor.executeBase64CommandDirect (be : Base64Executor) (isWindows : Bool)
    (encodedCommand : String) : Except String ExecCmd :=
  Except.ok (GetShellCommandForBase64 encodedCommand be.shellType isWindows)

/-- `Base64Executor.ExecuteCommand`: substitute the default on an empty
command; for the PowerShell and Sh shell types pass the encoded payload
through directly; otherwise decode first (the decoded Go string holds the
raw bytes, read back as text here) and execute the plaintext. -/
def Base64Executor.ExecuteCommand (be : Base64Executor) (isWindows : Bool)
    (encodedCommand : String) : Except String ExecCmd :=
  let encodedCommand := if encodedCommand = "" then be.defaultCommand else encodedCommand
  if be.shellType = ShellType.PowerShellShell ∨ be.shellType = ShellType.ShShell then
    be.executeBase64CommandDirect isWindows encodedCommand
  else
    match be.DecodeCommand encodedCommand with
    | Except.error e => Except.error ("failed to decode base64: " ++ e)
    | Except.ok bytes => be.executeCommand isWindows (stringOfUtf8 bytes)

/-- `PlainExecutor.executeCommand` (private). -/
def PlainExecutor.executeCommand (pe : PlainExecutor) (isWindows : Bool) (command : String) :
    Except String ExecCmd :=
  Except.ok (GetShellCommand command pe.shellType isWindows)

/-- `PlainExecutor.ExecuteCommand`: substitute the default on an empty
command, then execute directly. -/
def PlainExecutor.ExecuteCommand (pe : PlainExecutor) (isWindows : Bool) (command : String) :
    Except String ExecCmd :=
  let command := if command = "" then pe.defaultCommand else command
  pe.executeCommand isWindows command

/-- The `CommandExecutor` values the factory can return. -/
inductive CommandExecutor where
  | base64 (be : Base64Executor)
  | plain (pe : PlainExecutor)
deriving DecidableEq

/-- The shell type a constructed strategy carries. -/
def CommandExecutor.shellType : CommandExecutor → ShellType
  | CommandExecutor.base64 be => be.shellType
  | CommandExecutor.plain pe => pe.shellType

/-- `ExecutorFactory.CreateExecutorWithShell` (the factory's logger is
plumbing; the Go `default:` branch is unreachable over the two-valued
enumeration). -/
def ExecutorFactory.CreateExecutorWithShell (executorType : ExecutorType)
    (shellType : ShellType) (isWindows : Bool) : CommandExecutor :=
  match executorType with
  | ExecutorType.Base64Type => CommandExecutor.base64 (NewBase64ExecutorWithShell shellType isWindows)
  | ExecutorType.PlainType => CommandExecutor.plain (NewPlainExecutorWithShell shellType isWindows)

/-- The shell override performed in `main.go` before the factory call:
base64 executor + auto shell + Windows prefers PowerShell. -/
def mainShellOverride (executorType : ExecutorType) (shellType : ShellType)
    (isWindows : Bool) : ShellType :=
  if executorType = ExecutorType.Base64Type ∧ shellType = ShellType.AutoShell ∧ isWindows = true then
    ShellType.PowerShellShell
  else shellType

/-! ## Facts about the base64 codec -/

theorem b64IndexAux_eq_none (cs : List Char) (c : Char) : ∀ (i : Nat), c ∉ cs →
    b64IndexAux cs c i = none := by
  induction cs with
  | nil => intro i _; rfl
  | cons a as ih =>
      intro i h
      simp only [b64IndexAux]
      rw [if_neg, ih]
      · exact fun hm => h (List.mem_cons_of_mem a hm)
      · intro hac; subst hac; exact h (List.mem_cons_self a as)

theorem b64IndexAux_mem (cs : List Char) (c : Char) : ∀ (i j : Nat),
    b64IndexAux cs c i = some j → c ∈ cs := by
  induction cs with
  | nil => intro i j h; exact Option.noConfusion h
  | cons a as ih =>
      intro i j h
      simp only [b64IndexAux] at h
      by_cases hac : a = c
      · subst hac; exact List.mem_cons_self a as
      · rw [if_neg hac] at h
        exact List.mem_cons_of_mem a (ih _ _ h)

theorem b64Index_eq_none (c : Char) (h : c ∉ b64Alphabet) : b64Index c = none :=
  b64IndexAux_eq_none b64Alphabet c 0 h

theorem b64Index_mem (c : Char) (j : Nat) (h : b64Index c = some j) : c ∈ b64Alphabet :=
  b64IndexAux_mem b64Alphabet c 0 j h

theorem b64Index_b64Char : ∀ n, n < 64 → b64Index (b64Char n) = some n := by decide

theorem b64Alphabet_length : b64Alphabet.length = 64 := by decide

theorem b64Char_mem_alphabet (n : Nat) : b64Char n ∈ b64Alphabet := by
  by_cases h : n < 64
  · revert n; decide
  · rw [b64Char, List.getD_eq_default _ _ (by rw [b64Alphabet_length]; omega)]
    decide

theorem b64Alphabet_no_special : ∀ c ∈ b64Alphabet,
    c ≠ '=' ∧ c ≠ '\n' ∧ c ≠ '\r' ∧ c ≠ singleQuoteChar := by decide

theorem b64Char_ne_eq (n : Nat) : b64Char n ≠ '=' :=
  (b64Alphabet_no_special _ (b64Char_mem_alphabet n)).1

theorem mem_b64EncodeBytes : ∀ (bs : List Nat) (c : Char), c ∈ b64EncodeBytes bs →
    c ∈ b64Alphabet ∨ c = '='
  | [], c, h => absurd h (List.not_mem_nil c)
  | [a], c, h => by
      simp only [b64EncodeBytes, List.mem_cons, List.not_mem_nil, or_false] at h
      rcases h with rfl | rfl | rfl | rfl
      · exact Or.inl (b64Char_mem_alphabet _)
      · exact Or.inl (b64Char_mem_alphabet _)
      · exact Or.inr rfl
      · exact Or.inr rfl
  | [a, b], c, h => by
      simp only [b64EncodeBytes, List.mem_cons, List.not_mem_nil, or_false] at h
      rcases h with rfl | rfl | rfl | rfl
      · exact Or.inl (b64Char_mem_alphabet _)
      · exact Or.inl (b64Char_mem_alphabet _)
      · exact Or.inl (b64Char_mem_alphabet _)
      · exact Or.inr rfl
  | a :: b :: d :: rest, c, h => by
      simp only [b64EncodeBytes, List.mem_cons] at h
      rcases h with rfl | rfl | rfl | rfl | h
      · exact Or.inl (b64Char_mem_alphabet _)
      · exact Or.inl (b64Char_mem_alphabet _)
      · exact Or.inl (b64Char_mem_alphabet _)
      · exact Or.inl (b64Char_mem_alphabet _)
      · exact mem_b64EncodeBytes rest c h

theorem filter_b64EncodeBytes (bs : List Nat) :
    (b64EncodeBytes bs).filter (fun c => c != '\n' && c != '\r') = b64EncodeBytes bs := by
  rw [List.filter_eq_self]
  intro c hc
  rcases mem_b64EncodeBytes bs c hc with h | h
  · have hs := b64Alphabet_no_special c h
    simp only [Bool.and_eq_true, bne_iff_ne]
    exact ⟨hs.2.1, hs.2.2.1⟩
  · subst h; decide

theorem b64_decode_encode : ∀ (bs : List Nat), (∀ b ∈ bs, b < 256) →
    b64DecodeChars (b64EncodeBytes bs) = some bs
  | [], _ => rfl
  | [a], h => by
      have ha : a < 256 := h a (List.mem_cons_self a [])
      show b64DecodeChars [b64Char (a / 4), b64Char (a % 4 * 16), '=', '='] = some [a]
      simp only [b64DecodeChars, b64Index_b64Char (a / 4) (by omega),
        b64Index_b64Char (a % 4 * 16) (by omega)]
      simp only [if_pos rfl, and_self, ite_true, Option.some.injEq, List.cons.injEq, and_true]
      omega
  | [a, b], h => by
      have ha : a < 256 := h a (by simp)
      have hb : b < 256 := h b (by simp)
      show b64DecodeChars
          [b64Char (a / 4), b64Char (a % 4 * 16 + b / 16), b64Char (b % 16 * 4), '='] =
        some [a, b]
      simp only [b64DecodeChars, b64Index_b64Char (a / 4) (by omega),
        b64Index_b64Char (a % 4 * 16 + b / 16) (by omega),
        b64Index_b64Char (b % 16 * 4) (by omega)]
      rw [if_neg (b64Char_ne_eq (b % 16 * 4))]
      simp only [if_pos rfl, ite_true, Option.some.injEq, List.cons.injEq, and_true]
      constructor <;> omega
  | a :: b :: d :: rest, h => by
      have ha : a < 256 := h a (by simp)
      have hb : b < 256 := h b (by simp)
      have hd : d < 256 := h d (by simp)
      have hrec := b64_decode_encode rest (fun x hx => h x (by simp [hx]))
      show b64DecodeChars (b64Char (a / 4) :: b64Char (a % 4 * 16 + b / 16) ::
          b64Char (b % 16 * 4 + d / 64) :: b64Char (d % 64) :: b64EncodeBytes rest) =
        some (a :: b :: d :: rest)
      simp only [b64DecodeChars, b64Index_b64Char (a / 4) (by omega),
        b64Index_b64Char (a % 4 * 16 + b / 16) (by omega),
        b64Index_b64Char (b % 16 * 4 + d / 64) (by omega),
        b64Index_b64Char (d % 64) (by omega)]
      rw [if_neg (b64Char_ne_eq (b % 16 * 4 + d / 64)), if_neg (b64Char_ne_eq (d % 64)), hrec]
      simp only [Option.some.injEq, List.cons.injEq, and_true]
      refine ⟨by omega, by omega, by omega⟩

theorem b64DecodeChars_chars : ∀ (cs : List Char) (bs : List Nat),
    b64DecodeChars cs = some bs → ∀ c ∈ cs, (b64Index c).isSome ∨ c = '='
  | [], _, _, c, hc => absurd hc (List.not_mem_nil c)
  | [c0], _, hsome, _, _ => Option.noConfusion hsome
  | [c0, c1], _, hsome, _, _ => Option.noConfusion hsome
  | [c0, c1, c2], _, hsome, _, _ => Option.noConfusion hsome
  | c0 :: c1 :: c2 :: c3 :: rest, bs, hsome, c, hc => by
      simp only [b64DecodeChars] at hsome
      cases h0 : b64Index c0 with
      | none => rw [h0] at hsome; exact Option.noConfusion hsome
      | some i0 =>
      cases h1 : b64Index c1 with
      | none => rw [h0, h1] at hsome; exact Option.noConfusion hsome
      | some i1 =>
      rw [h0, h1] at hsome
      dsimp only at hsome
      simp only [List.mem_cons] at hc
      by_cases h2 : c2 = '='
      · rw [if_pos h2] at hsome
        by_cases h3 : c3 = '=' ∧ rest = []
        · rcases hc with rfl | rfl | rfl | rfl | hc
          · exact Or.inl (by rw [h0]; rfl)
          · exact Or.inl (by rw [h1]; rfl)
          · exact Or.inr h2
          · exact Or.inr h3.1
          · rw [h3.2] at hc; exact absurd hc (List.not_mem_nil c)
        · rw [if_neg h3] at hsome; exact Option.noConfusion hsome
      · rw [if_neg h2] at hsome
        cases h2i : b64Index c2 with
        | none => rw [h2i] at hsome; exact Option.noConfusion hsome
        | some i2 =>
        rw [h2i] at hsome
        dsimp only at hsome
        by_cases h3 : c3 = '='
        · rw [if_pos h3] at hsome
          by_cases hr : rest = []
          · rcases hc with rfl | rfl | rfl | rfl | hc
            · exact Or.inl (by rw [h0]; rfl)
            · exact Or.inl (by rw [h1]; rfl)
            · exact Or.inl (by rw [h2i]; rfl)
            · exact Or.inr h3
            · rw [hr] at hc; exact absurd hc (List.not_mem_nil c)
          · rw [if_neg hr] at hsome; exact Option.noConfusion hsome
        · rw [if_neg h3] at hsome
          cases h3i : b64Index c3 with
          | none => rw [h3i] at hsome; exact Option.noConfusion hsome
          | some i3 =>
          rw [h3i] at hsome
          dsimp only at hsome
          cases hrest : b64DecodeChars rest with
          | none => rw [hrest] at hsome; exact Option.noConfusion hsome
          | some bs2 =>
          rcases hc with rfl | rfl | rfl | rfl | hc
          · exact Or.inl (by rw [h0]; rfl)
          · exact Or.inl (by rw [h1]; rfl)
          · exact Or.inl (by rw [h2i]; rfl)
          · exact Or.inl (by rw [h3i]; rfl)
          · exact b64DecodeChars_chars rest bs2 hrest c hc

theorem b64DecodeChars_length : ∀ (cs : List Char) (bs : List Nat),
    b64DecodeChars cs = some bs → cs.length % 4 = 0
  | [], _, _ => rfl
  | [c0], _, hsome => Option.noConfusion hsome
  | [c0, c1], _, hsome => Option.noConfusion hsome
  | [c0, c1, c2], _, hsome => Option.noConfusion hsome
  | c0 :: c1 :: c2 :: c3 :: rest, bs, hsome => by
      simp only [b64DecodeChars] at hsome
      cases h0 : b64Index c0 with
      | none => rw [h0] at hsome; exact Option.noConfusion hsome
      | some i0 =>
      cases h1 : b64Index c1 with
      | none => rw [h0, h1] at hsome; exact Option.noConfusion hsome
      | some i1 =>
      rw [h0, h1] at hsome
      dsimp only at hsome
      by_cases h2 : c2 = '='
      · rw [if_pos h2] at hsome
        by_cases h3 : c3 = '=' ∧ rest = []
        · simp [h3.2]
        · rw [if_neg h3] at hsome; exact Option.noConfusion hsome
      · rw [if_neg h2] at hsome
        cases h2i : b64Index c2 with
        | none => rw [h2i] at hsome; exact Option.noConfusion hsome
        | some i2 =>
        rw [h2i] at hsome
        dsimp only at hsome
        by_cases h3 : c3 = '='
        · rw [if_pos h3] at hsome
          by_cases hr : rest = []
          · simp [hr]
          · rw [if_neg hr] at hsome; exact Option.noConfusion hsome
        · rw [if_neg h3] at hsome
          cases h3i : b64Index c3 with
          | none => rw [h3i] at hsome; exact Option.noConfusion hsome
          | some i3 =>
          rw [h3i] at hsome
          dsimp only at hsome
          cases hrest : b64DecodeChars rest with
          | none => rw [hrest] at hsome; exact Option.noConfusion hsome
          | some bs2 =>
          have := b64DecodeChars_length rest bs2 hrest
          simp only [List.length_cons]
          omega

theorem DecodeString_EncodeToString (bs : List Nat) (h : ∀ b ∈ bs, b < 256) :
    DecodeString (EncodeToString bs) = some bs := by
  show b64DecodeChars ((b64EncodeBytes bs).filter _) = some bs
  rw [filter_b64EncodeBytes, b64_decode_encode bs h]

/-! ## Facts about the UTF-8 and UTF-16LE byte sequences -/

theorem char_toNat_valid (c : Char) : Nat.isValidChar c.toNat := c.valid

theorem utf8EncodeChar_lt (v : Nat) (hv : v < 1114112) : ∀ b ∈ utf8EncodeChar v, b < 256 := by
  intro b hb
  unfold utf8EncodeChar at hb
  by_cases h1 : v < 0x80
  · rw [if_pos h1] at hb
    simp only [List.mem_cons, List.not_mem_nil, or_false] at hb
    omega
  · rw [if_neg h1] at hb
    by_cases h2 : v < 0x800
    · rw [if_pos h2] at hb
      simp only [List.mem_cons, List.not_mem_nil, or_false] at hb
      omega
    · rw [if_neg h2] at hb
      by_cases h3 : v < 0x10000
      · rw [if_pos h3] at hb
        simp only [List.mem_cons, List.not_mem_nil, or_false] at hb
        omega
      · rw [if_neg h3] at hb
        simp only [List.mem_cons, List.not_mem_nil, or_false] at hb
        omega

theorem utf8Encode_lt (s : String) : ∀ b ∈ utf8Encode s, b < 256 := by
  intro b hb
  simp only [utf8Encode, List.mem_flatMap] at hb
  obtain ⟨c, _, hb⟩ := hb
  have hv := char_toNat_valid c
  unfold Nat.isValidChar at hv
  exact utf8EncodeChar_lt c.toNat (by omega) b hb

theorem utf16leBytes_lt (s : String) : ∀ b ∈ utf16leBytes s, b < 256 := by
  intro b hb
  simp only [utf16leBytes, List.mem_flatMap, List.mem_cons, List.not_mem_nil, or_false] at hb
  obtain ⟨u, _, hb⟩ := hb
  rcases hb with rfl | rfl <;> omega

theorem utf8DecodeOne_encodeChar (v : Nat) (hv : Nat.isValidChar v) (L : List Nat) :
    ∃ b0 t, utf8EncodeChar v = b0 :: t ∧ utf8DecodeOne b0 (t ++ L) = some (v, L) := by
  have hv1 : v < 1114112 ∧ ¬(55296 ≤ v ∧ v < 57344) := by
    unfold Nat.isValidChar at hv; omega
  by_cases h1 : v < 0x80
  · refine ⟨v, [], by rw [utf8EncodeChar, if_pos h1], ?_⟩
    simp only [List.nil_append, utf8DecodeOne]
    rw [if_pos h1]
  · by_cases h2 : v < 0x800
    · refine ⟨0xC0 + v / 64, [0x80 + v % 64], by rw [utf8EncodeChar, if_neg h1, if_pos h2], ?_⟩
      simp only [List.cons_append, List.nil_append, utf8DecodeOne]
      rw [if_neg (by omega), if_pos (by omega)]
      rw [if_pos (by unfold utf8Cont; omega)]
      simp only [Option.some.injEq, Prod.mk.injEq]
      exact ⟨by unfold utf8Val2; omega, trivial⟩
    · by_cases h3 : v < 0x10000
      · refine ⟨0xE0 + v / 4096, [0x80 + v / 64 % 64, 0x80 + v % 64],
          by rw [utf8EncodeChar, if_neg h1, if_neg h2, if_pos h3], ?_⟩
        simp only [List.cons_append, List.nil_append, utf8DecodeOne]
        rw [if_neg (by omega), if_neg (by omega), if_pos (by omega)]
        rw [if_pos (by unfold utf8Cont utf8Val3; omega)]
        simp only [Option.some.injEq, Prod.mk.injEq]
        exact ⟨by unfold utf8Val3; omega, trivial⟩
      · refine ⟨0xF0 + v / 262144, [0x80 + v / 4096 % 64, 0x80 + v / 64 % 64, 0x80 + v % 64],
          by rw [utf8EncodeChar, if_neg h1, if_neg h2, if_neg h3], ?_⟩
        simp only [List.cons_append, List.nil_append, utf8DecodeOne]
        rw [if_neg (by omega), if_neg (by omega), if_neg (by omega), if_pos (by omega)]
        rw [if_pos (by unfold utf8Cont utf8Val4; omega)]
        simp only [Option.some.injEq, Prod.mk.injEq]
        exact ⟨by unfold utf8Val4; omega, trivial⟩

theorem utf8DecodeLoop_encode : ∀ (vs : List Nat) (fuel : Nat), (∀ v ∈ vs, Nat.isValidChar v) →
    (vs.flatMap utf8EncodeChar).length ≤ fuel →
    utf8DecodeLoop fuel (vs.flatMap utf8EncodeChar) = some vs
  | [], fuel, _, _ => by cases fuel <;> rfl
  | v :: vs, fuel, h, hlen => by
      have hv : Nat.isValidChar v := h v (List.mem_cons_self v vs)
      obtain ⟨b0, t, he, hd⟩ := utf8DecodeOne_encodeChar v hv (vs.flatMap utf8EncodeChar)
      rw [List.flatMap_cons, he, List.cons_append] at hlen ⊢
      simp only [List.length_cons, List.length_append] at hlen
      cases fuel with
      | zero => omega
      | succ f =>
          have hrec := utf8DecodeLoop_encode vs f
            (fun x hx => h x (List.mem_cons_of_mem v hx)) (by omega)
          rw [utf8DecodeLoop, hd]
          dsimp only
          rw [hrec]
          rfl

theorem utf8DecodeCodes_encode (vs : List Nat) (h : ∀ v ∈ vs, Nat.isValidChar v) :
    utf8DecodeCodes (vs.flatMap utf8EncodeChar) = some vs :=
  utf8DecodeLoop_encode vs (vs.flatMap utf8EncodeChar).length h (Nat.le_refl _)

theorem map_ofNat_toNat : ∀ (l : List Char), (l.map Char.toNat).map Char.ofNat = l
  | [] => rfl
  | c :: cs => by
      simp only [List.map_cons, Char.ofNat_toNat, map_ofNat_toNat cs]

theorem utf8Encode_eq_flatMap (s : String) :
    utf8Encode s = (s.data.map Char.toNat).flatMap utf8EncodeChar := by
  rw [utf8Encode, List.flatMap_map]

theorem stringOfUtf8_utf8Encode (s : String) : stringOfUtf8 (utf8Encode s) = s := by
  rw [stringOfUtf8, utf8Encode_eq_flatMap,
    utf8DecodeCodes_encode (s.data.map Char.toNat) (by
      intro v hv
      simp only [List.mem_map] at hv
      obtain ⟨c, _, rfl⟩ := hv
      exact char_toNat_valid c)]
  dsimp only
  rw [map_ofNat_toNat]

/-! ## Facts about `strings.Join` -/

theorem intercalate_go_eq_foldl (sep : String) : ∀ (as : List String) (acc : String),
    String.intercalate.go acc sep as = as.foldl (fun a b => a ++ sep ++ b) acc
  | [], _ => rfl
  | a :: as, acc => by
      show String.intercalate.go (acc ++ sep ++ a) sep as = _
      rw [intercalate_go_eq_foldl sep as (acc ++ sep ++ a)]
      rfl

theorem stringsJoin_eq_intercalate (l : List String) (sep : String) :
    stringsJoin l sep = String.intercalate sep l := by
  cases l with
  | nil => rfl
  | cons x xs =>
      show xs.foldl (fun acc s => acc ++ sep ++ s) x = String.intercalate.go x sep xs
      rw [intercalate_go_eq_foldl sep xs x]

/-- C1: the compatibility validator errors exactly on (Base64, CMD), with a
message describing the incompatibility, and accepts every other pair. -/
theorem validate_compat_iff (c : Config) :
    c.ValidateExecutorShellCompatibility =
      (if c.executorType = ExecutorType.Base64Type ∧ c.shellType = ShellType.CMDShell then
        some "base64 executor is not compatible with cmd shell. Use powershell or sh instead"
      else none) := by
  obtain ⟨st, et, h, a, as⟩ := c
  cases st <;> cases et <;> rfl

/-- C5: the shell-invocation builders map each concrete shell to the expected
program and argument vector, for plaintext and for base64 payloads; the Sh
base64 arm interpolates the payload verbatim into a single-quoted literal. -/
theorem shell_invocation_table (payload : String) (w : Bool) :
    GetShellCommand payload ShellType.CMDShell w = ⟨"cmd", ["/C", payload]⟩ ∧
    GetShellCommand payload ShellType.PowerShellShell w = ⟨"powershell", ["-Command", payload]⟩ ∧
    GetShellCommand payload ShellType.ShShell w = ⟨"sh", ["-c", payload]⟩ ∧
    GetShellCommandForBase64 payload ShellType.PowerShellShell w =
      ⟨"powershell", ["-EncodedCommand", payload]⟩ ∧
    GetShellCommandForBase64 payload ShellType.ShShell w =
      ⟨"sh", ["-c", "echo " ++ singleQuote ++ payload ++ singleQuote ++ " | base64 -d | sh"]⟩ ∧
    GetShellCommandForBase64 payload ShellType.CMDShell w = ⟨"cmd", ["/C", payload]⟩ :=
  ⟨rfl, rfl, rfl, rfl, rfl, rfl⟩

/-- C6: for both builders, `Auto` on a Windows host builds the same invocation
as `CMD`, and `Auto` on a non-Windows host the same invocation as `Sh`. -/
theorem auto_shell_resolution (payload : String) :
    GetShellCommand payload ShellType.AutoShell true =
      GetShellCommand payload ShellType.CMDShell true ∧
    GetShellCommand payload ShellType.AutoShell false =
      GetShellCommand payload ShellType.ShShell false ∧
    GetShellCommandForBase64 payload ShellType.AutoShell true =
      GetShellCommandForBase64 payload ShellType.CMDShell true ∧
    GetShellCommandForBase64 payload ShellType.AutoShell false =
      GetShellCommandForBase64 payload ShellType.ShShell false :=
  ⟨rfl, rfl, rfl, rfl⟩

theorem length_utf16leBytes (s : String) :
    (utf16leBytes s).length = 2 * (utf16Encode (s.data.map Char.toNat)).length := by
  rw [utf16leBytes]
  induction utf16Encode (s.data.map Char.toNat) with
  | nil => rfl
  | cons u us ih =>
      simp only [List.flatMap_cons, List.length_append, List.length_cons, ih,
        List.length_nil, List.flatMap_nil]
      omega

/-- C2 counterexample: with stored shell `Auto` on a non-Windows host the
resolved shell is `Sh`, yet the executor decodes locally and runs the
plaintext `sh -c dir` instead of handing the still-encoded payload to the
base64 builder. -/
theorem execute_dispatch_cex :
    resolveShell ShellType.AutoShell false = ShellType.ShShell ∧
    Base64Executor.ExecuteCommand ⟨ShellType.AutoShell, "d"⟩ false "ZGly" =
      Except.ok ⟨"sh", ["-c", "dir"]⟩ ∧
    Base64Executor.ExecuteCommand ⟨ShellType.AutoShell, "d"⟩ false "ZGly" ≠
      Except.ok (GetShellCommandForBase64 "ZGly" ShellType.AutoShell false) :=
  ⟨rfl, by decide, by decide⟩

/-- C2 (amended): for non-empty encoded commands the dispatch is on the
strategy's stored shell type: stored `PowerShell` or `Sh` passes the
still-encoded payload straight to the base64 shell-invocation builder with
no local decode; stored `CMD` or `Auto` (even when `Auto` would resolve to
`Sh` on a non-Windows host) decodes first, returning an error and spawning
nothing on decode failure, and on success executing the decoded plaintext
exactly as the Plain strategy executes a plaintext command. -/
theorem execute_dispatch (be : Base64Executor) (w : Bool) (enc : String) (henc : enc ≠ "") :
    (be.shellType = ShellType.PowerShellShell ∨ be.shellType = ShellType.ShShell →
      be.ExecuteCommand w enc = Except.ok (GetShellCommandForBase64 enc be.shellType w)) ∧
    (be.shellType = ShellType.CMDShell ∨ be.shellType = ShellType.AutoShell →
      (∀ e, be.DecodeCommand enc = Except.error e →
        be.ExecuteCommand w enc = Except.error ("failed to decode base64: " ++ e)) ∧
      (∀ plain : String, be.DecodeCommand enc = Except.ok (utf8Encode plain) →
        be.ExecuteCommand w enc = Except.ok (GetShellCommand plain be.shellType w) ∧
        (∀ pe : PlainExecutor, pe.shellType = be.shellType →
          be.ExecuteCommand w enc = pe.executeCommand w plain))) := by
  constructor
  · intro hor
    simp only [Base64Executor.ExecuteCommand, if_neg henc, if_pos hor]
    rfl
  · intro hor
    have hne : ¬(be.shellType = ShellType.PowerShellShell ∨ be.shellType = ShellType.ShShell) := by
      rcases hor with h | h <;> rw [h] <;> decide
    constructor
    · intro e he
      simp only [Base64Executor.ExecuteCommand, if_neg henc, if_neg hne, he]
    · intro plain hp
      have hbody : be.ExecuteCommand w enc = Except.ok (GetShellCommand plain be.shellType w) := by
        simp only [Base64Executor.ExecuteCommand, if_neg henc, if_neg hne, hp]
        rw [Base64Executor.executeCommand, stringOfUtf8_utf8Encode]
      refine ⟨hbody, ?_⟩
      intro pe hpe
      rw [hbody, PlainExecutor.executeCommand, hpe]

/-- Witness for `execute_dispatch` at a concrete CMD-shelled strategy and the
encoding of `dir`. -/
theorem execute_dispatch_witness :
    Base64Executor.ExecuteCommand ⟨ShellType.CMDShell, "d"⟩ true "ZGly" =
      Except.ok (GetShellCommand "dir" ShellType.CMDShell true) :=
  (((execute_dispatch ⟨ShellType.CMDShell, "d"⟩ true "ZGly" (by decide)).2
    (Or.inl rfl)).2 "dir" (by decide)).1

/-- C3: `EncodeCommand` base64-encodes the UTF-16LE byte sequence of the
command (two bytes per UTF-16 code unit, low byte first) when the strategy's
shell type is PowerShell, and the UTF-8 bytes otherwise. -/
theorem encode_command_spec (be : Base64Executor) (command : String) :
    (be.shellType = ShellType.PowerShellShell →
      be.EncodeCommand command = EncodeToString (utf16leBytes command)) ∧
    (be.shellType ≠ ShellType.PowerShellShell →
      be.EncodeCommand command = EncodeToString (utf8Encode command)) ∧
    utf16leBytes command =
      (utf16Encode (command.data.map Char.toNat)).flatMap (fun u => [u % 256, u / 256 % 256]) ∧
    (utf16leBytes command).length = 2 * (utf16Encode (command.data.map Char.toNat)).length := by
  refine ⟨?_, ?_, rfl, length_utf16leBytes command⟩
  · intro h
    rw [Base64Executor.EncodeCommand, if_pos h]
    rfl
  · intro h
    rw [Base64Executor.EncodeCommand, if_neg h]

/-- Witness for `encode_command_spec` at a PowerShell strategy and `dir`. -/
theorem encode_command_spec_witness :
    (⟨ShellType.PowerShellShell, ""⟩ : Base64Executor).EncodeCommand "dir" =
      EncodeToString (utf16leBytes "dir") :=
  (encode_command_spec ⟨ShellType.PowerShellShell, ""⟩ "dir").1 rfl

/-- C4: under the UTF-8 (non-PowerShell) path the encoded output uses only
the standard base64 alphabet plus padding — in particular never a single
quote — and decoding it returns exactly the UTF-8 bytes of the command,
whose textual reading is the command itself. -/
theorem encode_utf8_roundtrip (be : Base64Executor)
    (hps : be.shellType ≠ ShellType.PowerShellShell) (c : String) :
    (∀ ch ∈ (be.EncodeCommand c).data, ch ∈ b64Alphabet ∨ ch = '=') ∧
    (∀ ch ∈ (be.EncodeCommand c).data, ch ≠ singleQuoteChar) ∧
    be.DecodeCommand (be.EncodeCommand c) = Except.ok (utf8Encode c) ∧
    (be.DecodeCommand (be.EncodeCommand c)).map stringOfUtf8 = Except.ok c := by
  have henc : be.EncodeCommand c = EncodeToString (utf8Encode c) := by
    rw [Base64Executor.EncodeCommand, if_neg hps]
  have hdec : DecodeString (EncodeToString (utf8Encode c)) = some (utf8Encode c) :=
    DecodeString_EncodeToString _ (utf8Encode_lt c)
  refine ⟨?_, ?_, ?_, ?_⟩
  · intro ch hch
    rw [henc] at hch
    exact mem_b64EncodeBytes _ ch hch
  · intro ch hch
    rw [henc] at hch
    rcases mem_b64EncodeBytes _ ch hch with h | h
    · exact (b64Alphabet_no_special ch h).2.2.2
    · subst h; decide
  · rw [henc]
    simp only [Base64Executor.DecodeCommand, hdec]
  · rw [henc]
    simp only [Base64Executor.DecodeCommand, hdec, Except.map, stringOfUtf8_utf8Encode]

/-- Witness for `encode_utf8_roundtrip` at an Sh strategy and `dir`. -/
theorem encode_utf8_roundtrip_witness :
    (⟨ShellType.ShShell, ""⟩ : Base64Executor).DecodeCommand
        ((⟨ShellType.ShShell, ""⟩ : Base64Executor).EncodeCommand "dir") =
      Except.ok (utf8Encode "dir") :=
  (encode_utf8_roundtrip ⟨ShellType.ShShell, ""⟩ (by decide) "dir").2.2.1

/-- C7: decoding never depends on the strategy's shell type; every standard
base64 encoding of a byte sequence decodes back to exactly those raw bytes
(in particular a PowerShell-encoded command decodes to its UTF-16LE bytes,
with no UTF-16 interpretation); a character outside the alphabet, `=` and
the skipped newlines anywhere in the input forces an error, as does a
length (after newline skipping) that is not a multiple of four. -/
theorem decode_command_spec (be be2 : Base64Executor) (enc : String) :
    be.DecodeCommand enc = be2.DecodeCommand enc ∧
    (∀ bs : List Nat, (∀ b ∈ bs, b < 256) →
      be.DecodeCommand (EncodeToString bs) = Except.ok bs) ∧
    (∀ s : String, be.DecodeCommand (Base64Executor.encodeForPowerShell s) =
      Except.ok (utf16leBytes s)) ∧
    (∀ ch ∈ enc.data, ch ∉ b64Alphabet → ch ≠ '=' → ch ≠ '\n' → ch ≠ '\r' →
      (be.DecodeCommand enc).isOk = false) ∧
    ((enc.data.filter (fun ch => ch != '\n' && ch != '\r')).length % 4 ≠ 0 →
      (be.DecodeCommand enc).isOk = false) := by
  refine ⟨rfl, ?_, ?_, ?_, ?_⟩
  · intro bs hbs
    simp only [Base64Executor.DecodeCommand, DecodeString_EncodeToString bs hbs]
  · intro s
    simp only [Base64Executor.encodeForPowerShell, Base64Executor.DecodeCommand,
      DecodeString_EncodeToString (utf16leBytes s) (utf16leBytes_lt s)]
  · intro ch hch hna hne hnn hnr
    cases hd : DecodeString enc with
    | none => simp only [Base64Executor.DecodeCommand, hd]; rfl
    | some bs =>
        exfalso
        have hmem : ch ∈ enc.data.filter (fun c => c != '\n' && c != '\r') :=
          List.mem_filter.mpr ⟨hch, by
            simp only [Bool.and_eq_true, bne_iff_ne]
            exact ⟨hnn, hnr⟩⟩
        rcases b64DecodeChars_chars _ bs hd ch hmem with hsome | heq
        · obtain ⟨j, hj⟩ := Option.isSome_iff_exists.mp hsome
          exact hna (b64Index_mem ch j hj)
        · exact hne heq
  · intro hlen
    cases hd : DecodeString enc with
    | none => simp only [Base64Executor.DecodeCommand, hd]; rfl
    | some bs => exact absurd (b64DecodeChars_length _ bs hd) hlen

/-- Witness for `decode_command_spec` at the encoding of the bytes of
`dir`. -/
theorem decode_command_spec_witness :
    EncodeToString [100, 105, 114] = "ZGly" ∧
    (⟨ShellType.AutoShell, ""⟩ : Base64Executor).DecodeCommand (EncodeToString [100, 105, 114]) =
      Except.ok [100, 105, 114] :=
  ⟨by decide,
    (decode_command_spec ⟨ShellType.AutoShell, ""⟩ ⟨ShellType.AutoShell, ""⟩
      (EncodeToString [100, 105, 114])).2.1 [100, 105, 114] (by decide)⟩

/-- C8 counterexample: the strategy built for shell `Sh` on a Windows host
stores a UTF-16LE-encoded default, not the §4.2 encoding for its resolved
shell (which for `Sh` is UTF-8) — indeed not even its own `EncodeCommand`
of `ipconfig`. -/
theorem default_command_cex :
    (NewBase64ExecutorWithShell ShellType.ShShell true).shellType = ShellType.ShShell ∧
    (NewBase64ExecutorWithShell ShellType.ShShell true).defaultCommand ≠
      (NewBase64ExecutorWithShell ShellType.ShShell true).EncodeCommand "ipconfig" ∧
    (NewBase64ExecutorWithShell ShellType.ShShell true).defaultCommand ≠
      EncodeToString (utf8Encode "ipconfig") :=
  ⟨rfl, by decide, by decide⟩

/-- C8 (amended): the precomputed default depends only on the host OS, never
on the strategy's shell type: on Windows it is the base64 of the UTF-16LE
bytes of `ipconfig`, otherwise the base64 of the UTF-8 bytes of `ifconfig`;
executing with an empty command substitutes exactly this default. -/
theorem default_command_spec (st st2 : ShellType) (w w2 : Bool) :
    (NewBase64ExecutorWithShell st w).defaultCommand =
      (if w then EncodeToString (utf16leBytes "ipconfig")
        else EncodeToString (utf8Encode "ifconfig")) ∧
    (NewBase64ExecutorWithShell st w).defaultCommand =
      (NewBase64ExecutorWithShell st2 w).defaultCommand ∧
    getDefaultBase64Command true = "aQBwAGMAbwBuAGYAaQBnAA==" ∧
    getDefaultBase64Command false = "aWZjb25maWc=" ∧
    (NewBase64ExecutorWithShell st w).ExecuteCommand w2 "" =
      (NewBase64ExecutorWithShell st w).ExecuteCommand w2
        ((NewBase64ExecutorWithShell st w).defaultCommand) := by
  refine ⟨rfl, rfl, by decide, by decide, ?_⟩
  have hne : (NewBase64ExecutorWithShell st w).defaultCommand ≠ "" := by
    show getDefaultBase64Command w ≠ ""
    cases w
    · decide
    · decide
  simp only [Base64Executor.ExecuteCommand, if_neg hne, eq_self_iff_true, ite_true]

/-- C9: `main` overrides (Base64, Auto, Windows) to PowerShell before calling
the factory, so the constructed strategy's shell is PowerShell rather than
CMD; the factory itself binds exactly the shell it is given, with no further
override. -/
theorem factory_override_spec :
    mainShellOverride ExecutorType.Base64Type ShellType.AutoShell true =
      ShellType.PowerShellShell ∧
    (ExecutorFactory.CreateExecutorWithShell ExecutorType.Base64Type
        (mainShellOverride ExecutorType.Base64Type ShellType.AutoShell true) true).shellType =
      ShellType.PowerShellShell ∧
    (∀ et st w, (ExecutorFactory.CreateExecutorWithShell et st w).shellType = st) ∧
    (∀ et st w, ¬(et = ExecutorType.Base64Type ∧ st = ShellType.AutoShell ∧ w = true) →
      mainShellOverride et st w = st) := by
  refine ⟨rfl, rfl, ?_, ?_⟩
  · intro et st w
    cases et <;> rfl
  · intro et st w h
    rw [mainShellOverride, if_neg h]

/-- Witness for `factory_override_spec`: the plain executor with Auto shell
on Windows is not overridden. -/
theorem factory_override_spec_witness :
    mainShellOverride ExecutorType.PlainType ShellType.AutoShell true = ShellType.AutoShell :=
  factory_override_spec.2.2.2 ExecutorType.PlainType ShellType.AutoShell true (by decide)

/-- C10: with fewer than two positional arguments the command handed to the
core is empty (triggering the strategy default); otherwise it is the
arguments after the action joined with exactly one space between consecutive
arguments. -/
theorem get_command_spec (c : Config) :
    (c.args.length < 2 → c.GetCommand = "") ∧
    (∀ a x rest, c.args = a :: x :: rest →
      c.GetCommand = String.intercalate " " (x :: rest)) ∧
    (∀ a x y, c.args = [a, x, y] → c.GetCommand = x ++ " " ++ y) := by
  refine ⟨?_, ?_, ?_⟩
  · intro h
    rw [Config.GetCommand, if_pos h]
  · intro a x rest h
    rw [Config.GetCommand, if_neg (by rw [h]; simp only [List.length_cons]; omega), h]
    show stringsJoin (x :: rest) " " = _
    rw [stringsJoin_eq_intercalate]
  · intro a x y h
    rw [Config.GetCommand, if_neg (by rw [h]; simp only [List.length_cons]; omega), h]
    rfl

/-- Witness for `get_command_spec` on `execute echo hi`. -/
theorem get_command_spec_witness :
    Config.GetCommand ⟨ShellType.AutoShell, ExecutorType.Base64Type, false, "execute",
        ["execute", "echo", "hi"]⟩ =
      String.intercalate " " ["echo", "hi"] :=
  (get_command_spec ⟨ShellType.AutoShell, ExecutorType.Base64Type, false, "execute",
    ["execute", "echo", "hi"]⟩).2.1 "execute" "echo" ["hi"] rfl
